import Mathlib

/-!
Verification of the desisurvey Progress ledger (`desisurvey.progress`).

The repository ships the test suite (`py/desisurvey/test/test_progress.py`)
for the `Progress` class together with helper modules; the `progress.py`
implementation module itself is not among the shown sources.  The ledger is
therefore modelled here from the specification's description of its data
model and operations, with the behaviour pinned down by the shipped tests
taken as authoritative wherever the two speak to the same point (in
particular the half-open `copy_range` selection interval exercised by
`TestProgress.test_copy_some`).

Numbers (`mjd`, `exptime`, `snr2frac`, `airmass`, `seeing`) are modelled as
rationals so every operation stays executable and decidable.
-/

namespace DesiSurvey

/-- One occupied exposure slot of a tile: start time `mjd` (Modified Julian
Date), exposure duration `exptime` in seconds, this exposure's fractional
contribution `snr2frac` to the tile's signal-to-noise-squared completion,
and the recorded `airmass` and `seeing`. -/
structure Exposure where
  mjd : ℚ
  exptime : ℚ
  snr2frac : ℚ
  airmass : ℚ
  seeing : ℚ
deriving DecidableEq, Repr

/-- One catalog tile together with its (append-only) exposure history.
`exposures` lists the occupied slots in slot order; unoccupied zero-filled
slots of the fixed-width table are not represented. -/
structure TileRow where
  tileid : Int
  passid : Nat
  ra : ℚ
  dec : ℚ
  exposures : List Exposure
deriving DecidableEq, Repr

/-- The Progress ledger: the fixed per-tile slot capacity `maxExposures`,
the ledger-wide `firstMjd`/`lastMjd` reporting bookkeeping, and the tile
table (catalog columns plus exposure slots). -/
structure Progress where
  maxExposures : Nat
  firstMjd : ℚ
  lastMjd : ℚ
  tiles : List TileRow
deriving DecidableEq, Repr

/-- Caller-visible failures of `add_exposure`: unknown `tile_id`, all
slots occupied, or a non-increasing `mjd`. -/
inductive AddError where
  | notFound
  | capacityExceeded
  | orderingViolation
deriving DecidableEq, Repr

/-- The raw (unclamped) sum of `snr2frac` over a tile's occupied slots. -/
def TileRow.snrSum (t : TileRow) : ℚ :=
  (t.exposures.map Exposure.snr2frac).sum

/-- The `mjd` values of a tile's occupied slots, in slot order. -/
def TileRow.mjds (t : TileRow) : List ℚ :=
  t.exposures.map Exposure.mjd

/-- The tile's most recent recorded `mjd`, if it has any exposure. -/
def TileRow.lastMjd? (t : TileRow) : Option ℚ :=
  t.mjds.getLast?

/-- Number of catalog tiles. -/
def Progress.num_tiles (p : Progress) : Nat :=
  p.tiles.length

/-- Write exposure `e` into tile `t` (stored at row `i`) and update the
ledger-wide earliest/latest observed MJD bookkeeping (a fresh ledger
stores `0` for both). -/
def Progress.record (p : Progress) (i : Nat) (t : TileRow) (e : Exposure) :
    Progress :=
  { p with
    tiles := p.tiles.set i { t with exposures := t.exposures ++ [e] }
    firstMjd := if p.firstMjd = 0 then e.mjd else min p.firstMjd e.mjd
    lastMjd := max p.lastMjd e.mjd }

/-- Modelled from the spec: `Progress.add_exposure` (implementation module
`desisurvey/progress.py` is not among the shown sources).  Preconditions per
§4.2: the `tile_id` exists, the tile has a free slot, and `mjd` is strictly
greater than the tile's most recent recorded `mjd` (or the tile has no
exposures yet).  On success it writes the next free slot and updates the
ledger-wide `firstMjd`/`lastMjd`; on failure it rejects with the matching
error and mutates nothing. -/
def Progress.add_exposure (p : Progress) (tile_id : Int)
    (mjd exptime snr2frac airmass seeing : ℚ) : Except AddError Progress :=
  match p.tiles.findIdx? (fun t => t.tileid == tile_id) with
  | none => .error .notFound
  | some i =>
    match p.tiles[i]? with
    | none => .error .notFound
    | some t =>
      if p.maxExposures ≤ t.exposures.length then
        .error .capacityExceeded
      else
        match t.lastMjd? with
        | some m =>
          if mjd ≤ m then
            .error .orderingViolation
          else
            .ok (p.record i t ⟨mjd, exptime, snr2frac, airmass, seeing⟩)
        | none =>
          .ok (p.record i t ⟨mjd, exptime, snr2frac, airmass, seeing⟩)

/-- The `add_exposure` state transition, reporting failures alongside the
(unchanged) state: a rejected call raises before any slot write, so the
ledger it leaves behind is the input ledger. -/
def Progress.add_exposure_step (p : Progress) (tile_id : Int)
    (mjd exptime snr2frac airmass seeing : ℚ) : Progress × Option AddError :=
  match p.add_exposure tile_id mjd exptime snr2frac airmass seeing with
  | .ok p' => (p', none)
  | .error e => (p, some e)

/-- Invariant 2 of the spec: within each tile, occupied slots are strictly
increasing in `mjd` in slot order. -/
def Progress.mjdSorted (p : Progress) : Prop :=
  ∀ t ∈ p.tiles, List.Chain' (· < ·) t.mjds

/-- Invariant 3 of the spec: no tile holds more than `maxExposures`
occupied slots. -/
def Progress.capOk (p : Progress) : Prop :=
  ∀ t ∈ p.tiles, t.exposures.length ≤ p.maxExposures

/-- The `only_passes` argument of `completed`: absent, a single pass id
(accepted as equivalent to its singleton set), or a set of pass ids. -/
inductive PassFilter where
  | any
  | single (a : Nat)
  | ofSet (ps : List Nat)
deriving DecidableEq, Repr

/-- Whether a tile's pass id passes the `only_passes` filter.  Unknown pass
ids raise no error: they simply match nothing. -/
def PassFilter.matches : PassFilter → Nat → Bool
  | .any, _ => true
  | .single a, q => decide (q = a)
  | .ofSet ps, q => decide (q ∈ ps)

/-- A tile's contribution to `completed`: with `include_partial` its
clamped completion fraction `min 1 snrSum`, without it `1` exactly when the
completion fraction is `1` (raw sum at least one) and `0` otherwise. -/
def TileRow.contribution ( include_partial : Bool) (t : TileRow) : ℚ :=
  if include_partial then min 1 t.snrSum
  else if 1 ≤ t.snrSum then 1 else 0

/-- Modelled from the spec: `Progress.completed` (§4.3) — over the tiles
passing the `only_passes` filter, the sum of per-tile completion
contributions. -/
def Progress.completed (p : Progress) ( include_partial : Bool)
    (only_passes : PassFilter) : ℚ :=
  ((p.tiles.filter (fun t => only_passes.matches t.passid)).map
    (TileRow.contribution include_partial)).sum

/-- Whether a tile belongs to the `get_observed` result: at least one
exposure when `include_partial`, otherwise completion fraction at least
one. -/
def TileRow.observedBy ( include_partial : Bool) (t : TileRow) : Bool :=
  if include_partial then !t.exposures.isEmpty else decide (1 ≤ t.snrSum)

/-- Modelled from the spec: the rows of the `Progress.get_observed` result
(§4.3) — the tiles passing the `include_partial` observation filter. -/
def observedRows (tbl : List TileRow) ( include_partial : Bool) :
    List TileRow :=
  tbl.filter (TileRow.observedBy include_partial)

/-- The filter kinds accepted by `get_summary`. -/
inductive SummaryKind where
  | observed
  | completed
  | all
deriving DecidableEq, Repr

/-- Whether a tile contributes a row to `get_summary kind`. -/
def SummaryKind.keeps : SummaryKind → TileRow → Bool
  | .observed, t => !t.exposures.isEmpty
  | .completed, t => decide (1 ≤ t.snrSum)
  | .all, _ => true

/-- One row of the `get_summary` table: catalog identity plus the derived
per-tile fields. -/
structure SummaryRow where
  tileid : Int
  passid : Nat
  nexp : Nat
  mjd_min : ℚ
  mjd_max : ℚ
  exptime : ℚ
  snr2frac : ℚ
  airmass : ℚ
  seeing : ℚ
deriving DecidableEq, Repr

/-- Modelled from the spec: the derived fields of one `get_summary` row
(§4.3) — exposure count, min/max MJD among the tile's exposures, total
exposure time, raw (unclamped) summed `snr2frac`, and as representative
`airmass`/`seeing` the mean over the tile's exposures (the policy left
open by §9 is fixed here as the mean, which agrees with the tests'
single-distinct-value usage).  Unobserved tiles get zeroed derived
fields. -/
def TileRow.summary (t : TileRow) : SummaryRow :=
  { tileid := t.tileid
    passid := t.passid
    nexp := t.exposures.length
    mjd_min := match t.mjds with
      | [] => 0
      | m :: ms => ms.foldl min m
    mjd_max := match t.mjds with
      | [] => 0
      | m :: ms => ms.foldl max m
    exptime := (t.exposures.map Exposure.exptime).sum
    snr2frac := t.snrSum
    airmass := if t.exposures.isEmpty then 0
      else (t.exposures.map Exposure.airmass).sum / t.exposures.length
    seeing := if t.exposures.isEmpty then 0
      else (t.exposures.map Exposure.seeing).sum / t.exposures.length }

/-- Modelled from the spec: `Progress.get_summary` (§4.3) — one row per
tile kept by `kind`, in catalog order. -/
def Progress.get_summary (p : Progress) (kind : SummaryKind) :
    List SummaryRow :=
  (p.tiles.filter kind.keeps).map TileRow.summary

/-- The expected integer version tag of the persisted format.  Modelled
from the spec: the implementation's current `VERSION` constant (its exact
value is immaterial; only equality with it is ever checked). -/
def VERSION : Int := 1

/-- The persisted container: the integer format version tag, the global
metadata, and the fixed-width tile catalog with its exposure slots. -/
structure SavedFile where
  version : Int
  maxExposures : Nat
  firstMjd : ℚ
  lastMjd : ℚ
  tiles : List TileRow
deriving DecidableEq, Repr

/-- The failure of `load` on a version tag mismatch. -/
inductive LoadError where
  | versionMismatch
deriving DecidableEq, Repr

/-- Modelled from the spec: `Progress.save` (§4.4) — serializes the tile
catalog and exposure slots into the versioned container, writing the
current `VERSION` into its metadata. -/
def Progress.save (p : Progress) : SavedFile :=
  { version := VERSION
    maxExposures := p.maxExposures
    firstMjd := p.firstMjd
    lastMjd := p.lastMjd
    tiles := p.tiles }

/-- Modelled from the spec: loading a `Progress` from a saved container
(§4.4) — checks the stored version tag against the expected `VERSION` and
fails with a version mismatch if they differ (never silently coerced),
otherwise reconstructs the ledger exactly as saved. -/
def load (f : SavedFile) : Except LoadError Progress :=
  if f.version ≠ VERSION then .error .versionMismatch
  else .ok
    { maxExposures := f.maxExposures
      firstMjd := f.firstMjd
      lastMjd := f.lastMjd
      tiles := f.tiles }

/-- Modelled from the spec: constructing a `Progress` by wrapping an
already-in-memory table matching the schema (§6, construction input (c)) —
the table is adopted directly, no rebuild. -/
def Progress.ofTable (maxExposures : Nat) (firstMjd lastMjd : ℚ)
    (tiles : List TileRow) : Progress :=
  { maxExposures := maxExposures
    firstMjd := firstMjd
    lastMjd := lastMjd
    tiles := tiles }

/-- The failure of `copy_range` when both bounds are given out of order. -/
inductive RangeError where
  | rangeInvalid
deriving DecidableEq, Repr

/-- Whether an exposure's `mjd` is selected by the `copy_range` bounds: at
least `mjd_min` (when given) and strictly below `mjd_max` (when given).
The upper bound is exclusive: `test_copy_some` retains nothing under
`copy_range(None, mjds[0])` although an exposure sits at exactly
`mjds[0]`. -/
def inRange (mjd_min mjd_max : Option ℚ) (m : ℚ) : Bool :=
  (match mjd_min with
    | none => true
    | some a => decide (a ≤ m)) &&
  (match mjd_max with
    | none => true
    | some b => decide (m < b))

/-- The copying part of `copy_range`: the same tile catalog with each
tile's exposure slots filtered to the selected MJD range, in their
original relative slot order. -/
def Progress.restrict (p : Progress) (mjd_min mjd_max : Option ℚ) :
    Progress :=
  { p with
    tiles := p.tiles.map (fun t =>
      { t with
        exposures := t.exposures.filter
          (fun e => inRange mjd_min mjd_max e.mjd) }) }

/-- Modelled from the spec: `Progress.copy_range` (§4.4) — fails if both
bounds are given with `mjd_min > mjd_max`; otherwise produces a new ledger
with the same tile catalog whose exposure slots are filtered to the
selected MJD range, preserving relative slot order.  The selection
interval is half-open per `test_copy_some` (see `inRange`). -/
def Progress.copy_range (p : Progress) (mjd_min mjd_max : Option ℚ) :
    Except RangeError Progress :=
  match mjd_min, mjd_max with
  | some a, some b =>
    if b < a then .error .rangeInvalid
    else .ok (p.restrict mjd_min mjd_max)
  | _, _ => .ok (p.restrict mjd_min mjd_max)

/-! ### A store with reference cells, for the copy-on-read behaviour

`get_observed` promises an *independent copy*: mutating the returned table
must never change the ledger's internal table.  To express aliasing at all,
tables are placed in an addressed store; the ledger holds a reference to
its internal table and `get_observed` allocates a fresh cell holding a
copy of the selected rows. -/

/-- A table value: rows of catalog tiles with their exposure slots. -/
abbrev Table := List TileRow

/-- A reference to a table cell in the store. -/
structure TableRef where
  addr : Nat
deriving DecidableEq, Repr

/-- An addressed store of table values. -/
structure Store where
  cells : List Table
deriving DecidableEq, Repr

/-- Read the table a reference points to (an absent cell reads empty). -/
def Store.read (s : Store) (r : TableRef) : Table :=
  (s.cells[r.addr]?).getD []

/-- Overwrite the table a reference points to. -/
def Store.write (s : Store) (r : TableRef) (t : Table) : Store :=
  ⟨s.cells.set r.addr t⟩

/-- Allocate a fresh cell holding `t` and return a reference to it. -/
def Store.alloc (s : Store) (t : Table) : Store × TableRef :=
  (⟨s.cells ++ [t]⟩, ⟨s.cells.length⟩)

/-- A ledger living in the store: it owns a reference to its internal
table. -/
structure ProgressRef where
  table : TableRef
deriving DecidableEq, Repr

/-- Modelled from the spec: `Progress.get_observed` (§4.3) — selects the
tiles passing the `include_partial` observation filter and returns them
"as an independent copy": a freshly allocated table cell, never a view of
the ledger's internal table. -/
def get_observed (s : Store) (pr : ProgressRef) ( include_partial : Bool) :
    Store × TableRef :=
  s.alloc (observedRows (s.read pr.table) include_partial)

/-! ### Concrete fixtures used by the witness theorems -/

/-- A first exposure at MJD 58849 (integral values keep every fixture
kernel-computable). -/
def e1 : Exposure := ⟨58849, 100, 1, 2, 1⟩

/-- A second exposure at MJD 58850. -/
def e2 : Exposure := ⟨58850, 100, 1, 2, 1⟩

/-- An unobserved tile on pass 1. -/
def tA : TileRow := ⟨1, 1, 10, 5, []⟩

/-- An unobserved tile on pass 7. -/
def tB : TileRow := ⟨2, 7, 20, -5, []⟩

/-- An unobserved tile on pass 2. -/
def tC : TileRow := ⟨3, 2, 30, 15, []⟩

/-- The first tile after one exposure. -/
def tA1 : TileRow := ⟨1, 1, 10, 5, [e1]⟩

/-- The first tile with its two slots (the fixture capacity) occupied. -/
def tFull : TileRow := ⟨1, 1, 10, 5, [e1, e2]⟩

/-- A pass-1 tile holding three exposures of `snr2frac = 1` each, so its
raw sum `3` exceeds one. -/
def tX : TileRow :=
  ⟨4, 1, 40, 25, [e1, e2, ⟨58851, 100, 1, 2, 1⟩]⟩

/-- A fresh three-tile ledger with capacity two. -/
def pW : Progress := ⟨2, 0, 0, [tA, tB, tC]⟩

/-- The fixture ledger after one exposure on tile 1. -/
def pW1 : Progress := ⟨2, 58849, 58849, [tA1, tB, tC]⟩

/-- The fixture ledger after a second exposure on tile 1 at MJD 58850. -/
def pW1' : Progress := ⟨2, 58849, 58850, [tFull, tB, tC]⟩

/-- A two-tile ledger whose first tile has all its slots occupied. -/
def pW5 : Progress := ⟨2, 58849, 58850, [tFull, tB]⟩

/-- The ledger `pW5` after a successful exposure on its second tile at
MJD 58851. -/
def pW5' : Progress :=
  ⟨2, 58849, 58851, [tFull, ⟨2, 7, 20, -5, [⟨58851, 100, 1, 2, 1⟩]⟩]⟩

/-- A one-tile ledger whose single exposure sits at exactly MJD 58849. -/
def pC6 : Progress := ⟨2, 58849, 58849, [tA1]⟩

/-- A saved container carrying the deliberately wrong version tag `-1`,
mirroring `test_version_check`. -/
def badFile : SavedFile := ⟨-1, 2, 58849, 58849, [tA1]⟩

/-- A store holding one ledger table at address 0. -/
def sW : Store := ⟨[[tA1, tB]]⟩

/-- A reference to the ledger table of `sW`. -/
def prW : ProgressRef := ⟨⟨0⟩⟩

deriving instance DecidableEq for Except

/-! ### Helper lemmas -/

/-- Splitting a filtered sum along two mutually exclusive predicates. -/
lemma sum_filter_or_split (l : List TileRow) (c : TileRow → ℚ)
    (pa pb : TileRow → Bool) (hdisj : ∀ t, ¬(pa t = true ∧ pb t = true)) :
    ((l.filter (fun t => pa t || pb t)).map c).sum
      = ((l.filter pa).map c).sum + ((l.filter pb).map c).sum := by
  induction l with
  | nil => simp
  | cons t l ih =>
    by_cases ha : pa t = true
    · have hb : pb t = false := by
        cases hpb : pb t
        · rfl
        · exact absurd ⟨ha, hpb⟩ (hdisj t)
      simp only [List.filter_cons, ha, hb, Bool.true_or, if_pos, if_neg,
        Bool.false_eq_true, if_false, List.map_cons, List.sum_cons, ih]
      ring
    · have ha' : pa t = false := by
        cases hpa : pa t
        · rfl
        · exact absurd hpa ha
      cases hb : pb t
      · simp only [List.filter_cons, ha', hb, Bool.or_self,
          Bool.false_eq_true, if_false, ih]
      · simp only [List.filter_cons, ha', hb, Bool.false_or, if_pos,
          Bool.false_eq_true, if_false, List.map_cons, List.sum_cons, ih]
        ring

/-- The `mjd` list of a tile after appending one exposure slot. -/
lemma mjds_append (t : TileRow) (e : Exposure) :
    TileRow.mjds { t with exposures := t.exposures ++ [e] }
      = t.mjds ++ [e.mjd] := by
  simp [TileRow.mjds]

/-- Writing a slot whose `mjd` exceeds the tile's last recorded one keeps
every tile's slot sequence strictly increasing. -/
lemma record_mjdSorted (p : Progress) (i : Nat) (t : TileRow) (e : Exposure)
    (hget : p.tiles[i]? = some t) (hs : p.mjdSorted)
    (hlast : ∀ x ∈ t.mjds.getLast?, x < e.mjd) :
    (p.record i t e).mjdSorted := by
  intro t' ht'
  simp only [Progress.record] at ht'
  rcases List.mem_or_eq_of_mem_set ht' with hmem | rfl
  · exact hs t' hmem
  · rw [mjds_append]
    refine List.Chain'.append (hs t (List.getElem?_mem hget))
      (List.chain'_singleton e.mjd) ?_
    intro x hx y hy
    have hy' : e.mjd = y := by
      simpa using hy
    rw [← hy']
    exact hlast x hx

/-- Writing a slot into a tile that still has room keeps every tile within
the slot capacity. -/
lemma record_capOk (p : Progress) (i : Nat) (t : TileRow) (e : Exposure)
    (hcap : t.exposures.length < p.maxExposures) (hc : p.capOk) :
    (p.record i t e).capOk := by
  intro t' ht'
  simp only [Progress.record] at ht' ⊢
  rcases List.mem_or_eq_of_mem_set ht' with hmem | rfl
  · exact hc t' hmem
  · simp only [List.length_append, List.length_cons, List.length_nil]
    omega

/-! ### C3 — save / load round trip -/

/-- C3: for every ledger state, `save` followed by `load` reproduces an
equivalent ledger: the very same catalog and exposure slots, hence the
same `completed()` value for every `include_partial` / `only_passes`
combination. -/
theorem save_load_round_trip (p : Progress) (b : Bool) (f : PassFilter) :
    load p.save = Except.ok p
    ∧ (load p.save).toOption.map (fun q => q.completed b f)
        = some (p.completed b f)
    ∧ (load p.save).toOption.map Progress.tiles = some p.tiles := by
  have h : load p.save = Except.ok p := by
    simp [load, Progress.save]
  exact ⟨h, by rw [h]; rfl, by rw [h]; rfl⟩

/-! ### C4 — version check on load -/

/-- C4: loading a saved container whose stored integer version tag differs
from the expected current `VERSION` always fails with a version mismatch,
whatever the rest of its content; the version is never silently coerced. -/
theorem load_version_mismatch (f : SavedFile) (h : f.version ≠ VERSION) :
    load f = Except.error LoadError.versionMismatch := by
  simp [load, h]

/-- Witness for C4: the container `badFile` stores version `-1`, which
differs from the expected version, and loading it fails with the version
mismatch error. -/
theorem load_version_mismatch_witness :
    badFile.version ≠ VERSION
    ∧ load badFile = Except.error LoadError.versionMismatch :=
  ⟨by decide, load_version_mismatch badFile (by decide)⟩

/-! ### C10 — wrapping the in-memory table of a ledger -/

/-- C10: constructing a ledger by wrapping the in-memory table (and
metadata) of an existing ledger yields that very ledger back, so
`completed` agrees for every `include_partial` value and pass filter. -/
theorem ofTable_wrap_equiv (p : Progress) (b : Bool) (f : PassFilter) :
    Progress.ofTable p.maxExposures p.firstMjd p.lastMjd p.tiles = p
    ∧ (Progress.ofTable p.maxExposures p.firstMjd p.lastMjd
        p.tiles).completed b f = p.completed b f :=
  ⟨rfl, rfl⟩

/-! ### C2 — completion clamp -/

/-- C2: a tile's contribution to `completed(include_partial=True)` is
`min 1` of the raw `snr2frac` sum over its occupied slots, hence never
above one; once the raw sum exceeds one the tile contributes exactly one,
and it also counts as complete for `completed(include_partial=False)`. -/
theorem completed_clamp (p : Progress) (t : TileRow) (f : PassFilter)
    (hm : f.matches t.passid = true) :
    Progress.completed { p with tiles := p.tiles ++ [t] } true f
      = p.completed true f + min 1 t.snrSum
    ∧ min 1 t.snrSum ≤ 1
    ∧ (1 < t.snrSum →
        Progress.completed { p with tiles := p.tiles ++ [t] } true f
          = p.completed true f + 1
        ∧ Progress.completed { p with tiles := p.tiles ++ [t] } false f
          = p.completed false f + 1) := by
  have hsplit : ∀ b : Bool,
      Progress.completed { p with tiles := p.tiles ++ [t] } b f
        = p.completed b f + TileRow.contribution b t := by
    intro b
    simp [Progress.completed, List.filter_append, List.filter_cons, hm,
      TileRow.contribution]
  refine ⟨?_, min_le_left 1 _, fun hgt => ⟨?_, ?_⟩⟩
  · rw [hsplit true]
    rfl
  · rw [hsplit true]
    have hc : TileRow.contribution true t = 1 := by
      simp [TileRow.contribution, min_eq_left (le_of_lt hgt)]
    rw [hc]
  · rw [hsplit false]
    have hc : TileRow.contribution false t = 1 := by
      simp [TileRow.contribution, le_of_lt hgt]
    rw [hc]

/-- Witness for C2: appending the pass-1 tile `tX`, whose three exposures
of `snr2frac = 0.5` sum to `3/2 > 1`, raises `completed` by exactly one
under both `include_partial` settings. -/
theorem completed_clamp_witness :
    PassFilter.any.matches tX.passid = true
    ∧ (1 : ℚ) < tX.snrSum
    ∧ Progress.completed { pW with tiles := pW.tiles ++ [tX] } true .any
        = pW.completed true .any + 1
    ∧ Progress.completed { pW with tiles := pW.tiles ++ [tX] } false .any
        = pW.completed false .any + 1 :=
  ⟨by decide, by norm_num [tX, TileRow.snrSum, e1, e2],
    ((completed_clamp pW tX .any (by decide)).2.2
      (by norm_num [tX, TileRow.snrSum, e1, e2])).1,
    ((completed_clamp pW tX .any (by decide)).2.2
      (by norm_num [tX, TileRow.snrSum, e1, e2])).2⟩

/-! ### C7 — pass filter correctness -/

/-- C7: for distinct pass ids `A ≠ B` (no tile can belong to both, each
tile having one pass id), `completed` over the pass set `{A, B}` is the
sum of the two single-pass values; a single pass id behaves as its
singleton set; and a pass set matching no tile yields zero without any
error. -/
theorem completed_pass_filter (p : Progress) (b : Bool) (A B : Nat)
    (ps : List Nat) (hAB : A ≠ B) :
    p.completed b (.ofSet [A, B])
      = p.completed b (.single A) + p.completed b (.single B)
    ∧ p.completed b (.single A) = p.completed b (.ofSet [A])
    ∧ ((∀ t ∈ p.tiles, t.passid ∉ ps) → p.completed b (.ofSet ps) = 0) := by
  refine ⟨?_, ?_, ?_⟩
  · have hfil : p.tiles.filter
        (fun t => PassFilter.matches (.ofSet [A, B]) t.passid)
        = p.tiles.filter (fun t =>
            PassFilter.matches (.single A) t.passid
            || PassFilter.matches (.single B) t.passid) := by
      apply List.filter_congr
      intro t _
      simp [PassFilter.matches, List.mem_cons, decide_eq_true_eq]
    unfold Progress.completed
    rw [hfil]
    exact sum_filter_or_split p.tiles (TileRow.contribution b) _ _
      (by
        intro t ⟨h1, h2⟩
        simp only [PassFilter.matches, decide_eq_true_eq] at h1 h2
        exact hAB (h1 ▸ h2 ▸ rfl))
  · unfold Progress.completed
    have hfil : p.tiles.filter
        (fun t => PassFilter.matches (.single A) t.passid)
        = p.tiles.filter
          (fun t => PassFilter.matches (.ofSet [A]) t.passid) := by
      apply List.filter_congr
      intro t _
      simp [PassFilter.matches]
    rw [hfil]
  · intro hnone
    unfold Progress.completed
    have : p.tiles.filter
        (fun t => PassFilter.matches (.ofSet ps) t.passid) = [] := by
      rw [List.filter_eq_nil_iff]
      intro t ht
      simp [PassFilter.matches]
      exact hnone t ht
    rw [this]
    rfl

/-- Witness for C7: on the ledger `pW1` (one pass-1 tile observed, one
pass-7 and one pass-2 tile untouched), the pass set `{1, 7}` splits into
the two single passes, the single pass `1` agrees with its singleton set,
and the unmatched pass set `{5, 6}` contributes zero. -/
theorem completed_pass_filter_witness :
    (1 : Nat) ≠ 7
    ∧ pW1.completed true (.ofSet [1, 7])
        = pW1.completed true (.single 1) + pW1.completed true (.single 7)
    ∧ pW1.completed true (.single 1) = pW1.completed true (.ofSet [1])
    ∧ pW1.completed true (.ofSet [5, 6]) = 0 :=
  ⟨by decide,
    (completed_pass_filter pW1 true 1 7 [5, 6] (by decide)).1,
    (completed_pass_filter pW1 true 1 7 [5, 6] (by decide)).2.1,
    (completed_pass_filter pW1 true 1 7 [5, 6] (by decide)).2.2
      (by decide)⟩

/-! ### C6 — copy_range -/

/-- C6 (amended): with bounds in order (or absent), `copy_range` succeeds
and produces a ledger with the same capacity and catalog length whose
row `i` is the original row `i` with its exposure slots filtered — in
their original relative order — to the MJDs selected by the *half-open*
interval test `inRange` (lower bound inclusive, upper bound exclusive,
an omitted bound unbounded on its side); with both bounds omitted the
copy is identical to the original ledger. -/
theorem copy_range_filters (p : Progress) (lo hi : Option ℚ)
    (h : ∀ a b, lo = some a → hi = some b → a ≤ b) :
    p.copy_range lo hi = Except.ok (p.restrict lo hi)
    ∧ (p.restrict lo hi).maxExposures = p.maxExposures
    ∧ (p.restrict lo hi).num_tiles = p.num_tiles
    ∧ (∀ i : Nat, (p.restrict lo hi).tiles[i]?
        = (p.tiles[i]?).map (fun t : TileRow =>
            { t with exposures :=
                t.exposures.filter (fun e => inRange lo hi e.mjd) }))
    ∧ p.copy_range none none = Except.ok p := by
  refine ⟨?_, rfl, ?_, ?_, ?_⟩
  · match lo, hi with
    | none, none => rfl
    | none, some b => rfl
    | some a, none => rfl
    | some a, some b =>
      have hab : a ≤ b := h a b rfl rfl
      simp [Progress.copy_range, not_lt.mpr hab]
  · simp [Progress.restrict, Progress.num_tiles]
  · intro i
    simp [Progress.restrict, List.getElem?_map]
  · have hall : p.restrict none none = p := by
      have htiles : p.tiles.map (fun t =>
          { t with exposures :=
              t.exposures.filter (fun e => inRange none none e.mjd) })
          = p.tiles := by
        have hid : ∀ t : TileRow,
            ({ t with exposures :=
                t.exposures.filter (fun e => inRange none none e.mjd) })
              = t := by
          intro t
          have : t.exposures.filter (fun e => inRange none none e.mjd)
              = t.exposures := List.filter_true t.exposures
          rw [this]
        calc p.tiles.map (fun t =>
            { t with exposures :=
                t.exposures.filter (fun e => inRange none none e.mjd) })
            = p.tiles.map id := List.map_congr_left (fun t _ => hid t)
          _ = p.tiles := List.map_id p.tiles
      simp [Progress.restrict, htiles]
    rw [show p.copy_range none none = Except.ok (p.restrict none none)
      from rfl, hall]

/-- Witness for C6: on the one-tile ledger `pC6` the bounds `58849` and
`58850` are in order, the copy succeeds with the half-open filtering, and
a bounds-free copy returns the ledger unchanged. -/
theorem copy_range_filters_witness :
    pC6.copy_range (some 58849) (some 58850)
      = Except.ok (pC6.restrict (some 58849) (some 58850))
    ∧ (pC6.restrict (some 58849) (some 58850)).tiles[0]?
        = (pC6.tiles[0]?).map (fun t : TileRow =>
            { t with
              exposures := t.exposures.filter
                (fun e => inRange (some 58849) (some 58850) e.mjd) })
    ∧ pC6.copy_range none none = Except.ok pC6 :=
  ⟨(copy_range_filters pC6 (some 58849) (some 58850)
      (fun a b ha hb => by
        injection ha with ha'
        injection hb with hb'
        rw [← ha', ← hb']
        decide)).1,
    (copy_range_filters pC6 (some 58849) (some 58850)
      (fun a b ha hb => by
        injection ha with ha'
        injection hb with hb'
        rw [← ha', ← hb']
        decide)).2.2.2.1 0,
    (copy_range_filters pC6 (some 58849) (some 58850)
      (fun a b ha hb => by
        injection ha with ha'
        injection hb with hb'
        rw [← ha', ← hb']
        decide)).2.2.2.2⟩

/-- Counterexample for C6 as stated: the claim's *closed* interval
`[mjd_min, mjd_max]` would retain `pC6`'s single exposure at exactly MJD
58849 under `copy_range(None, 58849)` — the closed-interval filter keeps
every slot of `pC6`, so the claim forces the full copy — but the code's
copy drops that exposure (its upper bound is exclusive), so the result is
not the original ledger. -/
theorem copy_range_closed_counterexample :
    pC6.tiles.map (fun t =>
        { t with exposures :=
            t.exposures.filter (fun e => decide (e.mjd ≤ (58849 : ℚ))) })
      = pC6.tiles
    ∧ pC6.copy_range none (some 58849) ≠ Except.ok pC6 := by
  constructor
  · decide
  · decide

/-! ### C8 — get_observed returns an independent copy -/

/-- C8: `get_observed` hands back a freshly allocated copy of the selected
rows, so the returned reference reads the filtered rows, and overwriting
the returned table — with anything — is visible through the returned
reference but leaves the ledger's internal table untouched. -/
theorem get_observed_independent_copy (s : Store) (pr : ProgressRef)
    (b : Bool) (t' : Table) (h : pr.table.addr < s.cells.length) :
    Store.read (get_observed s pr b).1 (get_observed s pr b).2
      = observedRows (Store.read s pr.table) b
    ∧ Store.read
        (Store.write (get_observed s pr b).1 (get_observed s pr b).2 t')
        pr.table
      = Store.read s pr.table
    ∧ Store.read
        (Store.write (get_observed s pr b).1 (get_observed s pr b).2 t')
        (get_observed s pr b).2
      = t' := by
  have hne : pr.table.addr ≠ s.cells.length := Nat.ne_of_lt h
  refine ⟨?_, ?_, ?_⟩
  · simp [get_observed, Store.alloc, Store.read,
      List.getElem?_append_right, le_refl]
  · simp only [get_observed, Store.alloc, Store.write, Store.read]
    rw [List.getElem?_set_ne (Ne.symm hne),
      List.getElem?_append_left h]
  · simp only [get_observed, Store.alloc, Store.write, Store.read]
    rw [List.getElem?_set_self (by simp)]
    rfl

/-- Witness for C8: in the one-cell store `sW`, overwriting the table that
`get_observed` returned (here with the empty table) leaves the ledger's
internal table readable unchanged, while the returned reference reads the
overwritten value. -/
theorem get_observed_independent_copy_witness :
    prW.table.addr < sW.cells.length
    ∧ Store.read
        (Store.write (get_observed sW prW true).1
          (get_observed sW prW true).2 [])
        prW.table
      = Store.read sW prW.table
    ∧ Store.read
        (Store.write (get_observed sW prW true).1
          (get_observed sW prW true).2 [])
        (get_observed sW prW true).2
      = [] :=
  ⟨by decide,
    (get_observed_independent_copy sW prW true [] (by decide)).2.1,
    (get_observed_independent_copy sW prW true [] (by decide)).2.2⟩

/-! ### C9 — get_summary row structure -/

/-- C9: `get_summary 'all'` has exactly one row per catalog tile (in
catalog order), a tile without exposures gets zeroed derived fields in its
summary row, and any summary kind whose filter no tile satisfies (e.g.
`'completed'` with nothing complete yet) yields zero rows. -/
theorem get_summary_rows (p : Progress) :
    (p.get_summary .all).length = p.num_tiles
    ∧ p.get_summary .all = p.tiles.map TileRow.summary
    ∧ (∀ t ∈ p.tiles, t.exposures = [] →
        t.summary.nexp = 0 ∧ t.summary.mjd_min = 0
        ∧ t.summary.mjd_max = 0 ∧ t.summary.exptime = 0
        ∧ t.summary.snr2frac = 0 ∧ t.summary.airmass = 0
        ∧ t.summary.seeing = 0)
    ∧ (∀ k : SummaryKind, (∀ t ∈ p.tiles, k.keeps t = false) →
        p.get_summary k = []) := by
  have hall : p.tiles.filter (SummaryKind.keeps .all) = p.tiles :=
    List.filter_true p.tiles
  refine ⟨?_, ?_, ?_, ?_⟩
  · simp [Progress.get_summary, hall, Progress.num_tiles]
  · simp [Progress.get_summary, hall]
  · intro t _ hempty
    simp [TileRow.summary, hempty, TileRow.mjds, TileRow.snrSum]
  · intro k hk
    have : p.tiles.filter k.keeps = [] := by
      rw [List.filter_eq_nil_iff]
      intro t ht
      simp [hk t ht]
    simp [Progress.get_summary, this]

/-- Witness for C9: the fresh three-tile ledger `pW` has a three-row
`'all'` summary, its unobserved first tile summarizes with zero exposure
count, and its `'completed'` summary — nothing being complete — is
empty. -/
theorem get_summary_rows_witness :
    (pW.get_summary .all).length = pW.num_tiles
    ∧ tA.summary.nexp = 0
    ∧ pW.get_summary .completed = [] :=
  ⟨(get_summary_rows pW).1,
    ((get_summary_rows pW).2.2.1 tA (by decide) (by decide)).1,
    (get_summary_rows pW).2.2.2 .completed (by decide)⟩

/-! ### C1 — MJD ordering -/

/-- C1: an `add_exposure` call on an existing, non-full tile whose `mjd`
is not strictly greater than the tile's most recent recorded `mjd` is
rejected with the ordering violation and leaves the ledger unchanged; and
successful `add_exposure` calls preserve the strictly-increasing-MJD
invariant of every tile, so each tile's recorded `mjd` sequence stays
strictly increasing. -/
theorem add_exposure_ordering (p : Progress) (tile_id : Int)
    (mjd exptime snr2frac airmass seeing : ℚ) :
    (∀ i t m, p.tiles.findIdx? (fun u => u.tileid == tile_id) = some i →
      p.tiles[i]? = some t →
      t.exposures.length < p.maxExposures →
      t.lastMjd? = some m →
      mjd ≤ m →
      p.add_exposure_step tile_id mjd exptime snr2frac airmass seeing
        = (p, some AddError.orderingViolation))
    ∧ (p.mjdSorted →
      ∀ p', p.add_exposure tile_id mjd exptime snr2frac airmass seeing
          = Except.ok p' → p'.mjdSorted) := by
  constructor
  · intro i t m hidx hget hlt hlast hle
    simp only [Progress.add_exposure_step, Progress.add_exposure, hidx,
      hget, hlast]
    rw [if_neg (not_le.mpr hlt), if_pos hle]
  · intro hs p' hok
    unfold Progress.add_exposure at hok
    cases hidx : p.tiles.findIdx? (fun u => u.tileid == tile_id) with
    | none =>
      simp only [hidx] at hok
      exact absurd hok (by simp)
    | some i =>
      simp only [hidx] at hok
      cases hget : p.tiles[i]? with
      | none =>
        simp only [hget] at hok
        exact absurd hok (by simp)
      | some t =>
        simp only [hget] at hok
        by_cases hcap : p.maxExposures ≤ t.exposures.length
        · rw [if_pos hcap] at hok
          exact absurd hok (by simp)
        · rw [if_neg hcap] at hok
          cases hlast : t.lastMjd? with
          | some m =>
            simp only [hlast] at hok
            by_cases hle : mjd ≤ m
            · rw [if_pos hle] at hok
              exact absurd hok (by simp)
            · rw [if_neg hle] at hok
              injection hok with hok'
              rw [← hok']
              refine record_mjdSorted p i t _ hget hs ?_
              intro x hx
              have hxm : x = m := by
                have hx' : t.mjds.getLast? = some x := hx
                rw [TileRow.lastMjd?] at hlast
                rw [hlast] at hx'
                exact (Option.some_inj.mp hx').symm
              rw [hxm]
              exact not_le.mp hle
          | none =>
            simp only [hlast] at hok
            injection hok with hok'
            rw [← hok']
            refine record_mjdSorted p i t _ hget hs ?_
            intro x hx
            rw [TileRow.lastMjd?] at hlast
            rw [hlast] at hx
            exact absurd hx (by simp)

/-- Witness for C1: on `pW1` — tile 1 observed at MJD 58849 with a free
slot — a second call at the same MJD 58849 is rejected with the ordering
violation and returns the unchanged ledger, while the sorted-MJD invariant
survives the successful later call at MJD 58850 (yielding `pW1'`). -/
theorem add_exposure_ordering_witness :
    pW1.tiles.findIdx? (fun u => u.tileid == (1 : Int)) = some 0
    ∧ pW1.tiles[0]? = some tA1
    ∧ tA1.lastMjd? = some 58849
    ∧ pW1.add_exposure_step 1 58849 100 1 2 1
        = (pW1, some AddError.orderingViolation)
    ∧ Progress.mjdSorted pW1' :=
  ⟨by decide, by decide, by decide,
    (add_exposure_ordering pW1 1 58849 100 1 2 1).1 0 tA1 58849
      (by decide) (by decide) (by decide) (by decide) (by decide),
    (add_exposure_ordering pW1 1 58850 100 1 2 1).2
      (by
        intro t ht
        simp only [pW1, tA1, tB, tC, List.mem_cons, List.mem_singleton,
          List.not_mem_nil, or_false] at ht
        rcases ht with rfl | rfl | rfl <;>
          simp [TileRow.mjds, e1, List.chain'_cons, List.chain'_singleton])
      pW1' (by decide)⟩

/-! ### C5 — capacity bound -/

/-- C5: an `add_exposure` call on an existing tile all of whose slots are
occupied is rejected with the capacity error and leaves the ledger
unchanged; and successful calls keep every tile at or below the
`max_exposures` slot capacity, so a tile never accumulates more than
`max_exposures` occupied slots. -/
theorem add_exposure_capacity (p : Progress) (tile_id : Int)
    (mjd exptime snr2frac airmass seeing : ℚ) :
    (∀ i t, p.tiles.findIdx? (fun u => u.tileid == tile_id) = some i →
      p.tiles[i]? = some t →
      p.maxExposures ≤ t.exposures.length →
      p.add_exposure_step tile_id mjd exptime snr2frac airmass seeing
        = (p, some AddError.capacityExceeded))
    ∧ (p.capOk →
      ∀ p', p.add_exposure tile_id mjd exptime snr2frac airmass seeing
          = Except.ok p' → p'.capOk) := by
  constructor
  · intro i t hidx hget hfull
    simp only [Progress.add_exposure_step, Progress.add_exposure, hidx,
      hget]
    rw [if_pos hfull]
  · intro hc p' hok
    unfold Progress.add_exposure at hok
    cases hidx : p.tiles.findIdx? (fun u => u.tileid == tile_id) with
    | none =>
      simp only [hidx] at hok
      exact absurd hok (by simp)
    | some i =>
      simp only [hidx] at hok
      cases hget : p.tiles[i]? with
      | none =>
        simp only [hget] at hok
        exact absurd hok (by simp)
      | some t =>
        simp only [hget] at hok
        by_cases hcap : p.maxExposures ≤ t.exposures.length
        · rw [if_pos hcap] at hok
          exact absurd hok (by simp)
        · rw [if_neg hcap] at hok
          cases hlast : t.lastMjd? with
          | some m =>
            simp only [hlast] at hok
            by_cases hle : mjd ≤ m
            · rw [if_pos hle] at hok
              exact absurd hok (by simp)
            · rw [if_neg hle] at hok
              injection hok with hok'
              rw [← hok']
              exact record_capOk p i t _ (not_le.mp hcap) hc
          | none =>
            simp only [hlast] at hok
            injection hok with hok'
            rw [← hok']
            exact record_capOk p i t _ (not_le.mp hcap) hc

/-- Witness for C5: on `pW5` — capacity two, tile 1 already holding two
exposures — one more call on tile 1 is rejected with the capacity error
and returns the unchanged ledger, while the capacity invariant survives
the successful call on the still-free tile 2 (yielding `pW5'`). -/
theorem add_exposure_capacity_witness :
    pW5.tiles.findIdx? (fun u => u.tileid == (1 : Int)) = some 0
    ∧ pW5.tiles[0]? = some tFull
    ∧ pW5.maxExposures ≤ tFull.exposures.length
    ∧ pW5.add_exposure_step 1 58851 100 1 2 1
        = (pW5, some AddError.capacityExceeded)
    ∧ Progress.capOk pW5' :=
  ⟨by decide, by decide, by decide,
    (add_exposure_capacity pW5 1 58851 100 1 2 1).1 0 tFull
      (by decide) (by decide) (by decide),
    (add_exposure_capacity pW5 2 58851 100 1 2 1).2
      (by
        simp only [Progress.capOk]
        decide)
      pW5' (by decide)⟩

end DesiSurvey
